import Mathlib

/-!
Shallow embedding of the `mundi` recipe tooling:
`scripts/dep_graph.py` (version pattern evaluator, graph queries, rebuild
analysis), `scripts/sync_conda_forge.py` (shard cache sync) and
`scripts/gen_deps.py` (graph builder JSON output).

Modelling conventions: Python strings are Lean `String`s (digit tests use the
ASCII range, matching the decimal-digit intent of the version strings the
scripts handle); Python tuples of ints are `List Nat`; Python dicts are
insertion-ordered association lists, with assignment modelled by `dictSet`
(overwrite in place, append when new) exactly as CPython dicts behave; raw
bytes are `List Nat`.  The columnar/Cypher query engine (`lance_graph`) is an
external library, so its `MATCH` semantics are modelled from spec section 4.3:
a relationship pattern produces one row per matching edge row, and `DISTINCT`
deduplicates returned values.
-/

-- ===========================================================================
-- Python dict / list primitives
-- ===========================================================================

/-- CPython dict read `m.get(k)` / `k in m`: the entry stored under the key
(association lists built through `dictSet` hold each key at most once). -/
def pyGet {α : Type} (m : List (String × α)) (k : String) : Option α :=
  match m with
  | [] => none
  | (a, v) :: t => if a = k then some v else pyGet t k

/-- CPython dict assignment `m[k] = v`: overwrite the entry in place if the
key is present, otherwise append at the end (insertion order preserved). -/
def dictSet {α : Type} (m : List (String × α)) (k : String) (v : α) :
    List (String × α) :=
  if (pyGet m k).isSome then
    m.map (fun p => if p.1 = k then (k, v) else p)
  else m ++ [(k, v)]

/-- Python bytes.hex(): lowercase hex, two digits per byte. -/
def hexString (bs : List Nat) : String :=
  String.mk (bs.foldr (fun b acc => Nat.digitChar (b / 16 % 16) :: Nat.digitChar (b % 16) :: acc) [])

-- ===========================================================================
-- Version Pattern Evaluator (parse_version / version_bound)
-- ===========================================================================

/-- Python `ver.replace("-", ".")`: for a one-character pattern this is a
character-wise substitution. -/
def replaceDash (l : List Char) : List Char :=
  l.map fun c => if c = '-' then '.' else c

/-- Python `s.split(".")`: the empty string yields `[""]`, every separator
occurrence splits, adjacent separators give empty segments. -/
def pySplitDot : List Char → List (List Char)
  | [] => [[]]
  | c :: cs =>
    match pySplitDot cs with
    | [] => [[]]
    | seg :: rest => if c = '.' then [] :: seg :: rest else (c :: seg) :: rest

/-- Python `int()` of a string of decimal digits. -/
def intOfDigits (l : List Char) : Nat :=
  l.foldl (fun a c => 10 * a + (c.toNat - 48)) 0

/-- `dep_graph.py parse_version`: each segment maps to
`int("".join(c for c in p if c.isdigit()))` — every digit of the segment is
kept, `0` when the segment has no digit. -/
def dg_parse_version (ver : String) : List Nat :=
  (pySplitDot (replaceDash ver.toList)).map fun p =>
    let num := p.filter Char.isDigit
    if num.isEmpty then 0 else intOfDigits num

/-- The character loop of `sync_conda_forge.py parse_version`: append digits,
stop at the first non-digit (`break`). -/
def leadingDigits : List Char → List Char
  | [] => []
  | c :: cs => if c.isDigit then c :: leadingDigits cs else []

/-- `sync_conda_forge.py parse_version`: each segment maps to the number read
from its leading run of digits, `0` when the segment does not start with a
digit. -/
def sync_parse_version (ver : String) : List Nat :=
  (pySplitDot (replaceDash ver.toList)).map fun p =>
    let num := leadingDigits p
    if num.isEmpty then 0 else intOfDigits num

/-- `dep_graph.py version_bound`: `n = upper_bound.count("x")`; empty tuple if
`n = 0`, else the first `n` components of the parsed version padded with `n`
zeros. -/
def version_bound (version : String) (upper_bound : String) : List Nat :=
  let n := upper_bound.toList.count 'x'
  if n = 0 then [] else (dg_parse_version version ++ List.replicate n 0).take n

-- ===========================================================================
-- Graph model (dep_graph.py)
-- ===========================================================================

/-- One parsed `run_exports` entry as produced by `gen_deps.py
parse_run_export`.  String-form exports carry no `upper_bound` key and
pin_subpackage exports may carry `None`; both read back as falsy via
`exp.get("upper_bound", "")`, which `ubOf` reproduces. -/
structure RunExport where
  name : String
  exact : Bool
  lower_bound : Option String
  upper_bound : Option String
  kind : String
deriving DecidableEq, Repr

/-- `exp.get("upper_bound", "")` with `None` and a missing key both collapsing
to the falsy `""` (they are used only through truthiness and interpolation). -/
def ubOf (e : RunExport) : String := e.upper_bound.getD ""

/-- A row of the packages table written by `build_graph` (the `host_deps`
JSON column is never read back by the embedded queries). -/
structure Package where
  name : String
  version : String
  run_exports : List RunExport
deriving DecidableEq, Repr

/-- A row of the edges table: `(src)-[:DEP]->(dst)` with a constraint. -/
structure Edge where
  src : String
  dst : String
  constraint : String
deriving DecidableEq, Repr

structure Graph where
  packages : List Package
  edges : List Edge
deriving DecidableEq, Repr

/-- `_all_nodes`: the union of package names and edge destinations.  Python
builds a `set` and lists it in unspecified order; the model fixes one
duplicate-free enumeration of that set. -/
def all_nodes (g : Graph) : List String :=
  (g.packages.map (·.name) ++ g.edges.map (·.dst)).dedup

/-- `rdeps`: Cypher `MATCH (p)-[:DEP]->(d) WHERE d.name = name RETURN DISTINCT
p.name`, then `sorted(...)`.  Modelled from the spec: the engine returns one
value per matching edge row and `DISTINCT` deduplicates. -/
def rdeps (g : Graph) (name : String) : List String :=
  List.insertionSort (fun a b => a ≤ b)
    (((g.edges.filter (fun e => e.dst = name)).map (·.src)).dedup)

/-- `deps`: Cypher `MATCH (p)-[:DEP]->(d) WHERE p.name = name RETURN DISTINCT
d.name`, then `sorted(...)`. -/
def deps (g : Graph) (name : String) : List String :=
  List.insertionSort (fun a b => a ≤ b)
    (((g.edges.filter (fun e => e.src = name)).map (·.dst)).dedup)

/-- `dep_chain_2hop`: Cypher `MATCH (p)-[:DEP]->(d1)-[:DEP]->(d2) WHERE p.name
= name RETURN p.name, d1.name, d2.name` — no DISTINCT and no sort.  Modelled
from the spec: one row per matching pair of edge rows, in edge-table order. -/
def dep_chain_2hop (g : Graph) (name : String) : List (String × String × String) :=
  g.edges.flatMap fun e1 =>
    g.edges.filterMap fun e2 =>
      if e1.src = name ∧ e1.dst = e2.src then some (e1.src, e1.dst, e2.dst) else none

-- ===========================================================================
-- Upstream snapshot entries (shared by dep_graph.py and sync_conda_forge.py)
-- ===========================================================================

/-- The `{version, build_number, build, depends}` records stored in the
upstream snapshot (`deps.json`) and found inside shards; every field is read
through `.get` with the default shown here, so the model defaults a missing
field the same way. -/
structure PkgInfo where
  version : String
  build_number : Nat
  build : String
  depends : List String
deriving DecidableEq, Repr

-- ===========================================================================
-- check_rebuilds (dep_graph.py)
-- ===========================================================================

/-- The f-string `f"{name} {local_ver} -> {upstream_ver} (ub={ub})"`. -/
def reasonStr (name local_ver upstream_ver ub : String) : String :=
  name ++ " " ++ local_ver ++ " -> " ++ upstream_ver ++ " (ub=" ++ ub ++ ")"

/-- Accumulator of the `check_rebuilds` loop: the `rebuilds` list and the
`seen` set of `(dep, name)` pairs. -/
abbrev RebuildAcc := List (String × String × String) × List (String × String)

/-- Innermost loop of `check_rebuilds`: one trigger per reverse dependency,
skipping pairs already seen. -/
def rebuildDepsFold (pname reason : String) (rd : List String) (acc : RebuildAcc) :
    RebuildAcc :=
  rd.foldl (fun acc dep =>
    if (dep, pname) ∈ acc.2 then acc
    else (acc.1 ++ [(dep, pname, reason)], (dep, pname) :: acc.2)) acc

/-- Per-package body of the `check_rebuilds` loop (`upstream_ver` and `ub`
inlined at their use sites). -/
def rebuildPkg (g : Graph) (upstream : List (String × PkgInfo)) (acc : RebuildAcc)
    (p : Package) : RebuildAcc :=
  match pyGet upstream p.name with
  | none => acc
  | some uinfo =>
    if p.run_exports.isEmpty then acc
    else if uinfo.version = "" ∨ p.version = uinfo.version then acc
    else
      p.run_exports.foldl (fun acc exp =>
        if ubOf exp = "" ∨
            version_bound p.version (ubOf exp) = version_bound uinfo.version (ubOf exp) then
          acc
        else
          rebuildDepsFold p.name (reasonStr p.name p.version uinfo.version (ubOf exp))
            (rdeps g p.name) acc) acc

/-- Python `sorted` on 3-tuples of strings: lexicographic tuple order. -/
def tripleLe (a b : String × String × String) : Prop :=
  a.1 < b.1 ∨ (a.1 = b.1 ∧ (a.2.1 < b.2.1 ∨ (a.2.1 = b.2.1 ∧ a.2.2 ≤ b.2.2)))

instance : DecidableRel tripleLe := fun a b => by
  unfold tripleLe; infer_instance

instance : IsTotal (String × String × String) tripleLe := by
  constructor
  intro a b
  rcases lt_trichotomy a.1 b.1 with h | h | h
  · exact Or.inl (Or.inl h)
  · rcases lt_trichotomy a.2.1 b.2.1 with h2 | h2 | h2
    · exact Or.inl (Or.inr ⟨h, Or.inl h2⟩)
    · rcases le_total a.2.2 b.2.2 with h3 | h3
      · exact Or.inl (Or.inr ⟨h, Or.inr ⟨h2, h3⟩⟩)
      · exact Or.inr (Or.inr ⟨h.symm, Or.inr ⟨h2.symm, h3⟩⟩)
    · exact Or.inr (Or.inr ⟨h.symm, Or.inl h2⟩)
  · exact Or.inr (Or.inl h)

instance : IsTrans (String × String × String) tripleLe := by
  constructor
  intro a b c hab hbc
  rcases hab with h1 | ⟨e1, h1⟩
  · rcases hbc with h2 | ⟨e2, _⟩
    · exact Or.inl (h1.trans h2)
    · exact Or.inl (e2 ▸ h1)
  · rcases hbc with h2 | ⟨e2, h2⟩
    · exact Or.inl (e1 ▸ h2)
    · refine Or.inr ⟨e1.trans e2, ?_⟩
      rcases h1 with h1 | ⟨f1, h1⟩
      · rcases h2 with h2 | ⟨f2, _⟩
        · exact Or.inl (h1.trans h2)
        · exact Or.inl (f2 ▸ h1)
      · rcases h2 with h2 | ⟨f2, h2⟩
        · exact Or.inl (f1 ▸ h2)
        · exact Or.inr ⟨f1.trans f2, h1.trans h2⟩

/-- `check_rebuilds`: iterate over the packages table, collect triggers with
`(dep, name)` deduplication, return `sorted(rebuilds)`. -/
def check_rebuilds (g : Graph) (upstream : List (String × PkgInfo)) :
    List (String × String × String) :=
  List.insertionSort tripleLe ((g.packages.foldl (rebuildPkg g upstream) ([], [])).1)


-- ===========================================================================
-- Shard cache (sync_conda_forge.py)
-- ===========================================================================

/-- A decoded shard: the `packages` and `packages.conda` sub-mappings, each
keyed by artifact file name with a package-variant record as value. -/
structure Shard where
  packages : List (String × PkgInfo)
  packages_conda : List (String × PkgInfo)
deriving DecidableEq, Repr

/-- The shard cache directory: hex-named files holding raw shard bytes. -/
structure CacheState where
  files : List (String × List Nat)
deriving DecidableEq, Repr

/-- `download_shard`, with the network read abstracted as the `fetched` byte
string the URL would return, and decompress+msgpack.unpackb abstracted as
`decode`.  Returns the cache directory after the call together with the
parsed shard or the raised `ValueError` message. -/
def download_shard (sha256 : List Nat → List Nat) (decode : List Nat → Shard)
    (st : CacheState) (fetched : List Nat) (shard_hash : List Nat) :
    CacheState × Except String Shard :=
  let hash_hex := hexString shard_hash
  match pyGet st.files hash_hex with
  | some bytes => (st, .ok (decode bytes))
  | none =>
    let data := fetched
    let actual_hash := sha256 data
    if actual_hash ≠ shard_hash then
      (st, .error ("Hash mismatch: expected " ++ hash_hex ++ ", got " ++ hexString actual_hash))
    else
      ({ files := dictSet st.files hash_hex data }, .ok (decode data))

/-- Python `(tuple, int)` strict `>`: tuple lexicographic order in which a
proper prefix is smaller. -/
def pyListLt : List Nat → List Nat → Bool
  | [], [] => false
  | [], _ :: _ => true
  | _ :: _, [] => false
  | a :: as, b :: bs => if a < b then true else if b < a then false else pyListLt as bs

/-- `key > latest_key` for keys `(parsed_version, build_number)`. -/
def keyGt (k l : List Nat × Nat) : Bool :=
  pyListLt l.1 k.1 || (l.1 == k.1 && decide (l.2 < k.2))

/-- `extract_latest_from_shard`: merge `packages` with `packages.conda`
(dict update), then keep the first entry maximizing
`(parse_version(version), build_number)` under strict `>` against the running
key, starting from `((), 0)`.  (Python would also return `None` were the
winning variant literally the empty dict; the model's records always carry
the four `.get`-defaulted fields.) -/
def extract_latest_from_shard (s : Shard) : Option PkgInfo :=
  let ps := s.packages_conda.foldl (fun m kv => dictSet m kv.1 kv.2) s.packages
  if ps.isEmpty then none
  else
    let r := ps.foldl
      (fun (acc : Option PkgInfo × List Nat × Nat) kv =>
        let info := kv.2
        let key := (sync_parse_version info.version, info.build_number)
        if keyGt key acc.2 then (some info, key) else acc)
      (none, ([], 0))
    r.1.map fun info =>
      { version := info.version, build_number := info.build_number,
        build := info.build, depends := info.depends }

-- ===========================================================================
-- Sync classification and run (sync_conda_forge.py main)
-- ===========================================================================

/-- Accumulator of the classification loop in `main` (lines 205-226):
`new_hashes`, `missing`, `changed` and the `unchanged` counter. -/
structure ClassifyOut where
  new_hashes : List (String × String)
  missing : List String
  changed : List String
  unchanged : Nat
deriving DecidableEq, Repr

/-- One iteration of `for name in sorted(package_names)`. -/
def classifyStep (shards_map : List (String × List Nat))
    (old_hashes : List (String × String)) (old_deps : List (String × PkgInfo))
    (acc : ClassifyOut) (name : String) : ClassifyOut :=
  match pyGet shards_map name with
  | none => { acc with missing := acc.missing ++ [name] }
  | some shard_hash =>
    if pyGet old_hashes name = some (hexString shard_hash) ∧
        (pyGet old_deps name).isSome then
      { acc with new_hashes := dictSet acc.new_hashes name (hexString shard_hash),
                 unchanged := acc.unchanged + 1 }
    else
      { acc with new_hashes := dictSet acc.new_hashes name (hexString shard_hash),
                 changed := acc.changed ++ [name] }

/-- The classification loop of `main`: decide, per tracked name, whether its
shard is missing from the index, unchanged (recorded hash matches and the
local snapshot has an entry), or changed. -/
def classify (tracked : List String) (shards_map : List (String × List Nat))
    (old_hashes : List (String × String)) (old_deps : List (String × PkgInfo)) :
    ClassifyOut :=
  tracked.foldl (classifyStep shards_map old_hashes old_deps) ⟨[], [], [], 0⟩

/-- The download loop of `main` (lines 240-249): fetch each changed shard and
merge the extracted representative entry into the snapshot; an extraction
yielding nothing leaves the snapshot entry as it was.  Downloads are modelled
as the pure `content` map from the hex hash to the decoded shard (same shard
contents, no transport failures). -/
def fetchChanged (shards_map : List (String × List Nat)) (content : String → Shard)
    (deps0 : List (String × PkgInfo)) (changed : List String) :
    List (String × PkgInfo) :=
  changed.foldl (fun nd name =>
    match pyGet shards_map name with
    | none => nd
    | some h =>
      match extract_latest_from_shard (content (hexString h)) with
      | some info => dictSet nd name info
      | none => nd) deps0

/-- The durable state a full sync run persists: `deps.json` (upstream
snapshot) and `tracked_hashes.json`. -/
structure SyncState where
  deps : List (String × PkgInfo)
  hashes : List (String × String)
deriving DecidableEq, Repr

/-- A full (non-check, non-list-changed) sync run over an already sorted,
duplicate-free tracked name set: classify, fetch the changed shards, persist
`(new_deps, new_hashes)`; also returns the changed list. -/
def sync_run (tracked : List String) (shards_map : List (String × List Nat))
    (content : String → Shard) (st : SyncState) : SyncState × List String :=
  (⟨fetchChanged shards_map content st.deps
      (classify tracked shards_map st.hashes st.deps).changed,
    (classify tracked shards_map st.hashes st.deps).new_hashes⟩,
   (classify tracked shards_map st.hashes st.deps).changed)

-- ===========================================================================
-- Graph Builder JSON output (gen_deps.py main, --output json)
-- ===========================================================================

/-- One resolved output record of `resolve_recipe`. -/
structure GenPkg where
  name : String
  version : String
  build_string : String
  host_deps : List (String × String)
  run_exports : List RunExport
deriving DecidableEq, Repr

/-- The JSON branch of `gen_deps.py main`: `if name not in result:
result[name] = {...}` over `all_pkgs` in order. -/
def gen_json (all_pkgs : List GenPkg) :
    List (String × (String × List (String × String) × List RunExport)) :=
  all_pkgs.foldl (fun result pkg =>
    if (pyGet result pkg.name).isSome then result
    else result ++ [(pkg.name, (pkg.version, pkg.host_deps, pkg.run_exports))]) []

-- ===========================================================================
-- Concrete instances used by examples, witnesses and counterexamples
-- ===========================================================================

/-- The weak export rule `upper_bound="x.x"` of the end-to-end example. -/
def ruleBex : RunExport :=
  { name := "B", exact := false, lower_bound := none, upper_bound := some "x.x",
    kind := "weak" }

/-- End-to-end example graph: packages `A` and `B`, edge `A → B`. -/
def gC1 : Graph :=
  { packages := [ { name := "A", version := "1.0", run_exports := [] },
                  { name := "B", version := "1.2.0", run_exports := [ruleBex] } ],
    edges := [ { src := "A", dst := "B", constraint := "" } ] }

/-- Upstream snapshot holding one entry for `B` at the given version. -/
def upC1 (v : String) : List (String × PkgInfo) :=
  [("B", { version := v, build_number := 0, build := "", depends := [] })]

/-- A multigraph with two parallel `A → B` edges and one `B → C` edge. -/
def gPar : Graph :=
  { packages := [ { name := "A", version := "1", run_exports := [] },
                  { name := "B", version := "1", run_exports := [] } ],
    edges := [ { src := "A", dst := "B", constraint := "c1" },
               { src := "A", dst := "B", constraint := "c2" },
               { src := "B", dst := "C", constraint := "" } ] }

/-- A shard with one package variant (extraction succeeds). -/
def okShardC6 : Shard :=
  { packages := [("pkg-1.0-h0.tar.bz2",
      { version := "1.0", build_number := 0, build := "h0", depends := [] })],
    packages_conda := [] }


-- ===========================================================================
-- Association-list (Python dict) lemmas
-- ===========================================================================

theorem pyGet_append {α : Type} (m₁ m₂ : List (String × α)) (k : String) :
    pyGet (m₁ ++ m₂) k =
      match pyGet m₁ k with
      | some v => some v
      | none => pyGet m₂ k := by
  induction m₁ with
  | nil => rfl
  | cons p t ih =>
    rcases p with ⟨a, b⟩
    by_cases h : a = k <;> simp [pyGet, h, ih]

theorem pyGet_map_overwrite {α : Type} (m : List (String × α)) (k : String) (v : α)
    (h : (pyGet m k).isSome = true) :
    pyGet (m.map (fun p => if p.1 = k then (k, v) else p)) k = some v := by
  induction m with
  | nil => simp [pyGet] at h
  | cons p t ih =>
    rcases p with ⟨a, b⟩
    by_cases ha : a = k
    · subst ha
      show pyGet ((if a = a then (a, v) else (a, b)) ::
        t.map (fun p => if p.1 = a then (a, v) else p)) a = some v
      rw [if_pos rfl]
      show (if a = a then some v else
        pyGet (t.map (fun p => if p.1 = a then (a, v) else p)) a) = some v
      rw [if_pos rfl]
    · simp only [pyGet, if_neg ha] at h
      show pyGet ((if a = k then (k, v) else (a, b)) ::
        t.map (fun p => if p.1 = k then (k, v) else p)) k = some v
      rw [if_neg ha]
      show (if a = k then some b else
        pyGet (t.map (fun p => if p.1 = k then (k, v) else p)) k) = some v
      rw [if_neg ha]
      exact ih h

theorem pyGet_none_append {α : Type} (m : List (String × α)) (k : String) (v : α)
    (h : pyGet m k = none) : pyGet (m ++ [(k, v)]) k = some v := by
  rw [pyGet_append, h]
  simp [pyGet]

theorem pyGet_dictSet_self {α : Type} (m : List (String × α)) (k : String) (v : α) :
    pyGet (dictSet m k v) k = some v := by
  unfold dictSet
  split
  · exact pyGet_map_overwrite m k v (by assumption)
  · rename_i h
    refine pyGet_none_append m k v ?_
    cases hx : pyGet m k with
    | none => rfl
    | some w => rw [hx] at h; simp at h

theorem pyGet_map_overwrite_ne {α : Type} (m : List (String × α)) (k k' : String) (v : α)
    (hne : k' ≠ k) :
    pyGet (m.map (fun p => if p.1 = k then (k, v) else p)) k' = pyGet m k' := by
  induction m with
  | nil => rfl
  | cons p t ih =>
    rcases p with ⟨a, b⟩
    by_cases ha : a = k
    · subst ha
      have hk : ¬ a = k' := fun e => hne e.symm
      show pyGet ((if a = a then (a, v) else (a, b)) ::
        t.map (fun p => if p.1 = a then (a, v) else p)) k' = pyGet ((a, b) :: t) k'
      rw [if_pos rfl]
      show (if a = k' then some v else
          pyGet (t.map (fun p => if p.1 = a then (a, v) else p)) k') =
        if a = k' then some b else pyGet t k'
      rw [if_neg hk, if_neg hk]
      exact ih
    · show pyGet ((if a = k then (k, v) else (a, b)) ::
        t.map (fun p => if p.1 = k then (k, v) else p)) k' = pyGet ((a, b) :: t) k'
      rw [if_neg ha]
      by_cases hx : a = k'
      · subst hx
        show (if a = a then some b else
            pyGet (t.map (fun p => if p.1 = k then (k, v) else p)) a) =
          if a = a then some b else pyGet t a
        rw [if_pos rfl, if_pos rfl]
      · show (if a = k' then some b else
            pyGet (t.map (fun p => if p.1 = k then (k, v) else p)) k') =
          if a = k' then some b else pyGet t k'
        rw [if_neg hx, if_neg hx]
        exact ih

theorem pyGet_dictSet_ne {α : Type} (m : List (String × α)) (k k' : String) (v : α)
    (hne : k' ≠ k) : pyGet (dictSet m k v) k' = pyGet m k' := by
  unfold dictSet
  split
  · exact pyGet_map_overwrite_ne m k k' v hne
  · rw [pyGet_append]
    cases hx : pyGet m k' with
    | none =>
      have hk : ¬ k = k' := fun e => hne e.symm
      simp [pyGet, hk]
    | some w => simp

theorem pyGet_dictSet_isSome {α : Type} (m : List (String × α)) (k k' : String) (v : α)
    (h : (pyGet m k').isSome = true) :
    (pyGet (dictSet m k v) k').isSome = true := by
  by_cases he : k' = k
  · subst he; rw [pyGet_dictSet_self]; rfl
  · rw [pyGet_dictSet_ne m k k' v he]; exact h

-- ===========================================================================
-- Version parsing lemmas
-- ===========================================================================

theorem leadingDigits_eq_takeWhile (p : List Char) :
    leadingDigits p = p.takeWhile Char.isDigit := by
  induction p with
  | nil => rfl
  | cons c cs ih =>
    by_cases hc : c.isDigit
    · simp [leadingDigits, List.takeWhile_cons, hc, ih]
    · simp [leadingDigits, List.takeWhile_cons, hc]

theorem if_isEmpty_intOfDigits (l : List Char) :
    (if l.isEmpty then 0 else intOfDigits l) = intOfDigits l := by
  cases l <;> rfl

theorem sync_parse_version_eq (s : String) :
    sync_parse_version s =
      (pySplitDot (replaceDash s.toList)).map
        (fun p => intOfDigits (p.takeWhile Char.isDigit)) := by
  unfold sync_parse_version
  have hf : (fun p => let num := leadingDigits p;
      if num.isEmpty then 0 else intOfDigits num) =
      fun p : List Char => intOfDigits (p.takeWhile Char.isDigit) := by
    funext p
    show (if (leadingDigits p).isEmpty then 0 else intOfDigits (leadingDigits p)) =
      intOfDigits (p.takeWhile Char.isDigit)
    rw [if_isEmpty_intOfDigits, leadingDigits_eq_takeWhile]
  rw [hf]

theorem dg_parse_version_eq (s : String) :
    dg_parse_version s =
      (pySplitDot (replaceDash s.toList)).map
        (fun p => intOfDigits (p.filter Char.isDigit)) := by
  unfold dg_parse_version
  have hf : (fun p : List Char => let num := p.filter Char.isDigit;
      if num.isEmpty then 0 else intOfDigits num) =
      fun p : List Char => intOfDigits (p.filter Char.isDigit) := by
    funext p
    show (if (p.filter Char.isDigit).isEmpty then 0 else intOfDigits (p.filter Char.isDigit)) =
      intOfDigits (p.filter Char.isDigit)
    rw [if_isEmpty_intOfDigits]
  rw [hf]

-- ===========================================================================
-- Claim C2
-- ===========================================================================

/-- C2 counterexample: the claim asserts `parseVersion("2024-01-rc1") ==
(2024,1,0)` for both cited `parse_version` functions, but `dep_graph.py`'s
keeps every digit of a segment, so it returns `(2024, 1, 1)` on this input. -/
theorem C2_counterexample : dg_parse_version "2024-01-rc1" ≠ [2024, 1, 0] := by
  decide

/-- C2 (amended): both `parse_version` functions are total, returning one
numeric component per `.`/`-` segment.  `sync_conda_forge.py`'s computes the
leading-digit-run semantics (`0` when a segment does not start with a digit)
with the claimed examples; `dep_graph.py`'s instead maps each segment to the
number formed by concatenating all of the segment's digits, so it yields
`(2024, 1, 1)` on `"2024-01-rc1"`. -/
theorem C2_parse_version_semantics :
    sync_parse_version "1.2.3" = [1, 2, 3] ∧
    sync_parse_version "2024-01-rc1" = [2024, 1, 0] ∧
    (∀ s : String, sync_parse_version s =
      (pySplitDot (replaceDash s.toList)).map
        (fun p => intOfDigits (p.takeWhile Char.isDigit))) ∧
    dg_parse_version "1.2.3" = [1, 2, 3] ∧
    dg_parse_version "2024-01-rc1" = [2024, 1, 1] ∧
    (∀ s : String, dg_parse_version s =
      (pySplitDot (replaceDash s.toList)).map
        (fun p => intOfDigits (p.filter Char.isDigit))) ∧
    (∀ s : String, (sync_parse_version s).length =
      (pySplitDot (replaceDash s.toList)).length) ∧
    (∀ s : String, (dg_parse_version s).length =
      (pySplitDot (replaceDash s.toList)).length) := by
  refine ⟨by decide, by decide, sync_parse_version_eq, by decide, by decide,
    dg_parse_version_eq, ?_, ?_⟩
  · intro s
    rw [sync_parse_version_eq]
    exact List.length_map _ _
  · intro s
    rw [dg_parse_version_eq]
    exact List.length_map _ _

-- ===========================================================================
-- Claim C9
-- ===========================================================================

/-- A segment in which every digit occurs before any non-digit: once the
leading digit run ends, no digit follows. -/
def digitsOnlyLeading (p : List Char) : Bool :=
  (p.dropWhile Char.isDigit).all fun c => !c.isDigit

/-- C9 counterexample: the two `parse_version` embeddings disagree on
`"1a2"` — `dep_graph.py` concatenates all digits (12), `sync_conda_forge.py`
keeps only the leading run (1). -/
theorem C9_counterexample :
    dg_parse_version "1a2" = [12] ∧ sync_parse_version "1a2" = [1] ∧
    ([12] : List Nat) ≠ [1] := by decide

theorem filter_eq_nil_of_all_not (l : List Char)
    (h : l.all (fun c => !c.isDigit) = true) : l.filter Char.isDigit = [] := by
  induction l with
  | nil => rfl
  | cons c cs ih =>
    simp only [List.all_cons, Bool.and_eq_true, Bool.not_eq_true'] at h
    simp [List.filter_cons, h.1, ih h.2]

theorem filter_eq_takeWhile_of_leading (p : List Char)
    (h : digitsOnlyLeading p = true) :
    p.filter Char.isDigit = p.takeWhile Char.isDigit := by
  induction p with
  | nil => rfl
  | cons c cs ih =>
    by_cases hc : c.isDigit
    · unfold digitsOnlyLeading at h
      rw [List.dropWhile_cons_of_pos hc] at h
      rw [List.filter_cons_of_pos hc, List.takeWhile_cons_of_pos hc, ih h]
    · have hcf : c.isDigit = false := by
        cases hx : c.isDigit
        · rfl
        · exact absurd hx hc
      unfold digitsOnlyLeading at h
      rw [List.dropWhile_cons_of_neg hc] at h
      rw [List.takeWhile_cons_of_neg hc, List.filter_cons_of_neg hc]
      simp only [List.all_cons, Bool.and_eq_true] at h
      exact filter_eq_nil_of_all_not cs h.2

/-- C9 (amended): the two `parse_version` functions are not extensionally
equal (see the counterexample at `"1a2"`); they agree on every input in
which no segment has a digit after a non-digit, i.e. where the digits of
each segment form its leading run.  (The condition is sufficient, not
necessary: both functions also map `"a0"` to `(0,)`.) -/
theorem C9_parse_version_agreement :
    ∀ s : String,
      (∀ p ∈ pySplitDot (replaceDash s.toList), digitsOnlyLeading p = true) →
      dg_parse_version s = sync_parse_version s := by
  intro s h
  rw [dg_parse_version_eq, sync_parse_version_eq]
  apply List.map_congr_left
  intro p hp
  rw [filter_eq_takeWhile_of_leading p (h p hp)]

/-- C9 witness: the agreement theorem applied at the concrete input
`"1.2.3"`. -/
theorem C9_witness : dg_parse_version "1.2.3" = sync_parse_version "1.2.3" :=
  C9_parse_version_agreement "1.2.3" (by decide)

-- ===========================================================================
-- Claim C3
-- ===========================================================================

/-- C3: `version_bound` (the code's `boundedPrefix`) returns `()` when the
pattern has no placeholder token, and otherwise a tuple of length exactly
`n` whose `i`-th component is the `i`-th component of the parsed version,
`0` past its end; with the claimed concrete instances. -/
theorem C3_version_bound_semantics :
    (∀ v p : String, p.toList.count 'x' = 0 → version_bound v p = []) ∧
    (∀ v p : String, p.toList.count 'x' ≠ 0 →
      (version_bound v p).length = p.toList.count 'x' ∧
      ∀ i : Nat, i < p.toList.count 'x' →
        (version_bound v p).getD i 0 = (dg_parse_version v).getD i 0) ∧
    version_bound "1.2" "x.x" = [1, 2] ∧
    version_bound "1" "x.x" = [1, 0] ∧
    (∀ v : String, version_bound v "" = []) := by
  refine ⟨?_, ?_, by decide, by decide, ?_⟩
  · intro v p hn
    unfold version_bound
    rw [hn]
    rfl
  · intro v p hn
    unfold version_bound
    rw [if_neg hn]
    set n := p.toList.count 'x' with hdefn
    set xs := dg_parse_version v with hdefx
    constructor
    · rw [List.length_take, List.length_append, List.length_replicate]
      exact Nat.min_eq_left (Nat.le_add_left n xs.length)
    · intro i hi
      rw [List.getD_eq_getElem?_getD, List.getD_eq_getElem?_getD,
        List.getElem?_take, if_pos hi]
      by_cases hlen : i < xs.length
      · rw [List.getElem?_append_left hlen]
      · have hle : xs.length ≤ i := Nat.le_of_not_lt hlen
        rw [List.getElem?_append_right hle, List.getElem?_replicate]
        have hrep : i - xs.length < n :=
          Nat.lt_of_le_of_lt (Nat.sub_le i xs.length) hi
        rw [if_pos hrep, List.getElem?_eq_none hle]
        rfl
  · intro v
    unfold version_bound
    rfl

/-- C3 witness: the general part of the theorem applied at `"1"` and
`"x.x"`. -/
theorem C3_witness :
    (version_bound "1" "x.x").length = "x.x".toList.count 'x' ∧
    (version_bound "1" "x.x").getD 1 0 = (dg_parse_version "1").getD 1 0 := by
  refine ⟨(C3_version_bound_semantics.2.1 "1" "x.x" (by decide)).1, ?_⟩
  exact (C3_version_bound_semantics.2.1 "1" "x.x" (by decide)).2 1 (by decide)

-- ===========================================================================
-- Claim C5
-- ===========================================================================

theorem download_shard_uncached (sha256 : List Nat → List Nat)
    (decode : List Nat → Shard) (st : CacheState) (fetched shard_hash : List Nat)
    (hnone : pyGet st.files (hexString shard_hash) = none) :
    download_shard sha256 decode st fetched shard_hash =
      if sha256 fetched ≠ shard_hash then
        (st, Except.error ("Hash mismatch: expected " ++ hexString shard_hash ++
          ", got " ++ hexString (sha256 fetched)))
      else ({ files := dictSet st.files (hexString shard_hash) fetched },
        Except.ok (decode fetched)) := by
  simp only [download_shard]
  rw [hnone]

/-- C5: when no cached file exists under the expected hash, a digest mismatch
raises the integrity `ValueError` and leaves the cache untouched, while a
matching digest persists the raw bytes under the hash-named path and returns
the parsed content. -/
theorem C5_download_shard_integrity :
    ∀ (sha256 : List Nat → List Nat) (decode : List Nat → Shard)
      (st : CacheState) (fetched shard_hash : List Nat),
      pyGet st.files (hexString shard_hash) = none →
      ((sha256 fetched ≠ shard_hash →
        (download_shard sha256 decode st fetched shard_hash).1 = st ∧
        ∃ msg, (download_shard sha256 decode st fetched shard_hash).2 =
          Except.error msg) ∧
       (sha256 fetched = shard_hash →
        pyGet (download_shard sha256 decode st fetched shard_hash).1.files
            (hexString shard_hash) = some fetched ∧
        (download_shard sha256 decode st fetched shard_hash).2 =
          Except.ok (decode fetched))) := by
  intro sha256 decode st fetched shard_hash hnone
  rw [download_shard_uncached sha256 decode st fetched shard_hash hnone]
  constructor
  · intro hne
    rw [if_pos hne]
    exact ⟨rfl, _, rfl⟩
  · intro heq
    rw [if_neg (by simp [heq])]
    exact ⟨pyGet_dictSet_self st.files (hexString shard_hash) fetched, rfl⟩

/-- C5 witness: the integrity theorem applied to an empty cache, fetched
bytes `[1]` and expected hash `[2]` with a digest function returning `[]`. -/
theorem C5_witness :
    (download_shard (fun _ => []) (fun _ => Shard.mk [] []) ⟨[]⟩ [1] [2]).1 = ⟨[]⟩ ∧
    ∃ msg, (download_shard (fun _ => []) (fun _ => Shard.mk [] []) ⟨[]⟩ [1] [2]).2 =
      Except.error msg :=
  (C5_download_shard_integrity (fun _ => []) (fun _ => Shard.mk [] []) ⟨[]⟩ [1] [2]
    (by decide)).1 (by decide)

-- ===========================================================================
-- Claim C8
-- ===========================================================================

/-- C8 counterexample: two renderer records named `"a"` with versions `"1"`
then `"2"`; the emitted record keeps version `"1"` — the first record wins,
not the last. -/
theorem C8_counterexample :
    gen_json
      [{ name := "a", version := "1", build_string := "", host_deps := [],
         run_exports := [] },
       { name := "a", version := "2", build_string := "", host_deps := [],
         run_exports := [] }] =
      [("a", ("1", [], []))] ∧
    ("1", ([] : List (String × String)), ([] : List RunExport)) ≠ ("2", [], []) := by
  constructor
  · rfl
  · decide

theorem gen_json_loop (pkgs : List GenPkg)
    (acc : List (String × (String × List (String × String) × List RunExport)))
    (name : String) :
    pyGet (pkgs.foldl (fun result pkg =>
        if (pyGet result pkg.name).isSome then result
        else result ++ [(pkg.name, (pkg.version, pkg.host_deps, pkg.run_exports))])
      acc) name =
      match pyGet acc name with
      | some v => some v
      | none =>
        (pkgs.find? (fun p => p.name == name)).map
          (fun p => (p.version, p.host_deps, p.run_exports)) := by
  induction pkgs generalizing acc with
  | nil =>
    simp only [List.foldl_nil]
    cases hx : pyGet acc name <;> rfl
  | cons pkg rest ih =>
    simp only [List.foldl_cons]
    by_cases hs : (pyGet acc pkg.name).isSome = true
    · rw [if_pos hs, ih acc]
      by_cases he : pkg.name = name
      · subst he
        cases hx : pyGet acc pkg.name with
        | none => rw [hx] at hs; simp at hs
        | some v => rfl
      · have hb : (pkg.name == name) = false := beq_eq_false_iff_ne.mpr he
        rw [List.find?_cons_of_neg _ (by rw [hb]; exact Bool.false_ne_true)]
    · rw [if_neg hs, ih _]
      have hacc : pyGet acc pkg.name = none := by
        cases hx : pyGet acc pkg.name with
        | none => rfl
        | some v => rw [hx] at hs; simp at hs
      by_cases he : pkg.name = name
      · subst he
        rw [pyGet_none_append acc pkg.name _ hacc, hacc,
          List.find?_cons_of_pos _ (by simp)]
        rfl
      · have hb : (pkg.name == name) = false := beq_eq_false_iff_ne.mpr he
        rw [List.find?_cons_of_neg _ (by rw [hb]; exact Bool.false_ne_true),
          pyGet_append]
        have hsing :
            pyGet [(pkg.name, (pkg.version, pkg.host_deps, pkg.run_exports))] name =
              none := by
          simp [pyGet, he]
        rw [hsing]
        cases hx : pyGet acc name <;> rfl

/-- C8 (amended): among renderer outputs sharing a package name, the record
the JSON builder emits is the FIRST such record in the output sequence;
later duplicates are ignored (`if name not in result`). -/
theorem C8_gen_json_first_wins :
    ∀ (pkgs : List GenPkg) (name : String),
      pyGet (gen_json pkgs) name =
        (pkgs.find? (fun p => p.name == name)).map
          (fun p => (p.version, p.host_deps, p.run_exports)) := by
  intro pkgs name
  unfold gen_json
  rw [gen_json_loop pkgs [] name]
  rfl

-- ===========================================================================
-- check_rebuilds invariants (claims C1, C10)
-- ===========================================================================

/-- The deduplication key of a rebuild trigger: the `(dependent, package)`
pair. -/
def keyOf (t : String × String × String) : String × String := (t.1, t.2.1)

theorem rebuildDepsFold_inv (pname reason : String) (rd : List String)
    (acc : RebuildAcc)
    (h1 : acc.1.Pairwise (fun a b => keyOf a ≠ keyOf b))
    (h2 : ∀ t ∈ acc.1, keyOf t ∈ acc.2) :
    (rebuildDepsFold pname reason rd acc).1.Pairwise (fun a b => keyOf a ≠ keyOf b) ∧
    ∀ t ∈ (rebuildDepsFold pname reason rd acc).1,
      keyOf t ∈ (rebuildDepsFold pname reason rd acc).2 := by
  unfold rebuildDepsFold
  induction rd generalizing acc with
  | nil => exact ⟨h1, h2⟩
  | cons d rest ih =>
    simp only [List.foldl_cons]
    by_cases hd : (d, pname) ∈ acc.2
    · rw [if_pos hd]
      exact ih acc h1 h2
    · rw [if_neg hd]
      refine ih _ ?_ ?_
      · show (acc.1 ++ [(d, pname, reason)]).Pairwise (fun a b => keyOf a ≠ keyOf b)
        rw [List.pairwise_append]
        refine ⟨h1, List.pairwise_singleton _ _, ?_⟩
        intro a ha b hb
        rw [List.mem_singleton] at hb
        subst hb
        intro hk
        exact hd (show keyOf (d, pname, reason) ∈ acc.2 from hk ▸ h2 a ha)
      · show ∀ t ∈ acc.1 ++ [(d, pname, reason)], keyOf t ∈ (d, pname) :: acc.2
        intro t ht
        rw [List.mem_append] at ht
        rcases ht with ht | ht
        · exact List.mem_cons_of_mem _ (h2 t ht)
        · rw [List.mem_singleton] at ht
          subst ht
          exact List.mem_cons_self _ _

theorem rebuildDepsFold_mem (pname reason : String) (rd : List String)
    (acc : RebuildAcc) (t : String × String × String)
    (ht : t ∈ (rebuildDepsFold pname reason rd acc).1) :
    t ∈ acc.1 ∨ (t.1 ∈ rd ∧ t.2.1 = pname) := by
  unfold rebuildDepsFold at ht
  induction rd generalizing acc with
  | nil => exact Or.inl ht
  | cons d rest ih =>
    simp only [List.foldl_cons] at ht
    rcases ih _ ht with h | h
    · by_cases hd : (d, pname) ∈ acc.2
      · rw [if_pos hd] at h
        exact Or.inl h
      · rw [if_neg hd] at h
        have h1 : t ∈ acc.1 ++ [(d, pname, reason)] := h
        rw [List.mem_append] at h1
        rcases h1 with h1 | h1
        · exact Or.inl h1
        · rw [List.mem_singleton] at h1
          subst h1
          exact Or.inr ⟨List.mem_cons_self _ _, rfl⟩
    · exact Or.inr ⟨List.mem_cons_of_mem _ h.1, h.2⟩

theorem rebuildExpFold_inv (g : Graph) (p : Package) (uinfo : PkgInfo)
    (exps : List RunExport) (acc : RebuildAcc)
    (h1 : acc.1.Pairwise (fun a b => keyOf a ≠ keyOf b))
    (h2 : ∀ t ∈ acc.1, keyOf t ∈ acc.2) :
    (exps.foldl (fun acc exp =>
        if ubOf exp = "" ∨
            version_bound p.version (ubOf exp) = version_bound uinfo.version (ubOf exp) then
          acc
        else
          rebuildDepsFold p.name (reasonStr p.name p.version uinfo.version (ubOf exp))
            (rdeps g p.name) acc) acc).1.Pairwise (fun a b => keyOf a ≠ keyOf b) ∧
    ∀ t ∈ (exps.foldl (fun acc exp =>
        if ubOf exp = "" ∨
            version_bound p.version (ubOf exp) = version_bound uinfo.version (ubOf exp) then
          acc
        else
          rebuildDepsFold p.name (reasonStr p.name p.version uinfo.version (ubOf exp))
            (rdeps g p.name) acc) acc).1,
      keyOf t ∈ (exps.foldl (fun acc exp =>
        if ubOf exp = "" ∨
            version_bound p.version (ubOf exp) = version_bound uinfo.version (ubOf exp) then
          acc
        else
          rebuildDepsFold p.name (reasonStr p.name p.version uinfo.version (ubOf exp))
            (rdeps g p.name) acc) acc).2 := by
  induction exps generalizing acc with
  | nil => exact ⟨h1, h2⟩
  | cons e rest ih =>
    simp only [List.foldl_cons]
    by_cases he : ubOf e = "" ∨
        version_bound p.version (ubOf e) = version_bound uinfo.version (ubOf e)
    · rw [if_pos he]
      exact ih acc h1 h2
    · rw [if_neg he]
      have hstep := rebuildDepsFold_inv p.name
        (reasonStr p.name p.version uinfo.version (ubOf e)) (rdeps g p.name) acc h1 h2
      exact ih _ hstep.1 hstep.2

theorem rebuildExpFold_mem (g : Graph) (p : Package) (uinfo : PkgInfo)
    (exps : List RunExport) (acc : RebuildAcc) (t : String × String × String)
    (ht : t ∈ (exps.foldl (fun acc exp =>
        if ubOf exp = "" ∨
            version_bound p.version (ubOf exp) = version_bound uinfo.version (ubOf exp) then
          acc
        else
          rebuildDepsFold p.name (reasonStr p.name p.version uinfo.version (ubOf exp))
            (rdeps g p.name) acc) acc).1) :
    t ∈ acc.1 ∨ (t.1 ∈ rdeps g p.name ∧ t.2.1 = p.name) := by
  induction exps generalizing acc with
  | nil => exact Or.inl ht
  | cons e rest ih =>
    simp only [List.foldl_cons] at ht
    rcases ih _ ht with h | h
    · by_cases he : ubOf e = "" ∨
          version_bound p.version (ubOf e) = version_bound uinfo.version (ubOf e)
      · rw [if_pos he] at h
        exact Or.inl h
      · rw [if_neg he] at h
        exact rebuildDepsFold_mem p.name _ (rdeps g p.name) acc t h
    · exact Or.inr h

theorem rebuildPkg_eq_none (g : Graph) (u : List (String × PkgInfo))
    (acc : RebuildAcc) (p : Package) (hup : pyGet u p.name = none) :
    rebuildPkg g u acc p = acc := by
  unfold rebuildPkg
  rw [hup]

theorem rebuildPkg_eq_some (g : Graph) (u : List (String × PkgInfo))
    (acc : RebuildAcc) (p : Package) (uinfo : PkgInfo)
    (hup : pyGet u p.name = some uinfo) :
    rebuildPkg g u acc p =
      if p.run_exports.isEmpty then acc
      else if uinfo.version = "" ∨ p.version = uinfo.version then acc
      else
        p.run_exports.foldl (fun acc exp =>
          if ubOf exp = "" ∨
              version_bound p.version (ubOf exp) = version_bound uinfo.version (ubOf exp) then
            acc
          else
            rebuildDepsFold p.name (reasonStr p.name p.version uinfo.version (ubOf exp))
              (rdeps g p.name) acc) acc := by
  unfold rebuildPkg
  rw [hup]

theorem rebuildPkg_inv (g : Graph) (u : List (String × PkgInfo)) (acc : RebuildAcc)
    (p : Package)
    (h1 : acc.1.Pairwise (fun a b => keyOf a ≠ keyOf b))
    (h2 : ∀ t ∈ acc.1, keyOf t ∈ acc.2) :
    (rebuildPkg g u acc p).1.Pairwise (fun a b => keyOf a ≠ keyOf b) ∧
    ∀ t ∈ (rebuildPkg g u acc p).1, keyOf t ∈ (rebuildPkg g u acc p).2 := by
  cases hup : pyGet u p.name with
  | none => rw [rebuildPkg_eq_none g u acc p hup]; exact ⟨h1, h2⟩
  | some uinfo =>
    rw [rebuildPkg_eq_some g u acc p uinfo hup]
    by_cases hre : p.run_exports.isEmpty = true
    · rw [if_pos hre]
      exact ⟨h1, h2⟩
    · rw [if_neg hre]
      by_cases hv : uinfo.version = "" ∨ p.version = uinfo.version
      · rw [if_pos hv]
        exact ⟨h1, h2⟩
      · rw [if_neg hv]
        exact rebuildExpFold_inv g p uinfo p.run_exports acc h1 h2

theorem rebuildPkg_mem (g : Graph) (u : List (String × PkgInfo)) (acc : RebuildAcc)
    (p : Package) (t : String × String × String)
    (ht : t ∈ (rebuildPkg g u acc p).1) :
    t ∈ acc.1 ∨ (t.1 ∈ rdeps g p.name ∧ t.2.1 = p.name) := by
  cases hup : pyGet u p.name with
  | none => rw [rebuildPkg_eq_none g u acc p hup] at ht; exact Or.inl ht
  | some uinfo =>
    rw [rebuildPkg_eq_some g u acc p uinfo hup] at ht
    by_cases hre : p.run_exports.isEmpty = true
    · rw [if_pos hre] at ht
      exact Or.inl ht
    · rw [if_neg hre] at ht
      by_cases hv : uinfo.version = "" ∨ p.version = uinfo.version
      · rw [if_pos hv] at ht
        exact Or.inl ht
      · rw [if_neg hv] at ht
        exact rebuildExpFold_mem g p uinfo p.run_exports acc t ht

theorem rebuildFold_inv (g : Graph) (u : List (String × PkgInfo))
    (ps : List Package) (acc : RebuildAcc)
    (h1 : acc.1.Pairwise (fun a b => keyOf a ≠ keyOf b))
    (h2 : ∀ t ∈ acc.1, keyOf t ∈ acc.2) :
    (ps.foldl (rebuildPkg g u) acc).1.Pairwise (fun a b => keyOf a ≠ keyOf b) ∧
    ∀ t ∈ (ps.foldl (rebuildPkg g u) acc).1,
      keyOf t ∈ (ps.foldl (rebuildPkg g u) acc).2 := by
  induction ps generalizing acc with
  | nil => exact ⟨h1, h2⟩
  | cons p rest ih =>
    simp only [List.foldl_cons]
    have hstep := rebuildPkg_inv g u acc p h1 h2
    exact ih _ hstep.1 hstep.2

theorem rebuildFold_rdeps (g : Graph) (u : List (String × PkgInfo))
    (ps : List Package) (acc : RebuildAcc)
    (h : ∀ t ∈ acc.1, t.1 ∈ rdeps g t.2.1) :
    ∀ t ∈ (ps.foldl (rebuildPkg g u) acc).1, t.1 ∈ rdeps g t.2.1 := by
  induction ps generalizing acc with
  | nil => exact h
  | cons p rest ih =>
    simp only [List.foldl_cons]
    refine ih _ ?_
    intro t ht
    rcases rebuildPkg_mem g u acc p t ht with h1 | h1
    · exact h t h1
    · rw [h1.2]
      exact h1.1

-- ===========================================================================
-- Claim C1
-- ===========================================================================

/-- C1: the end-to-end rebuild example — `B` at `1.2.0` with one `x.x` export
rule and edge `A → B` yields exactly the claimed trigger when upstream is
`1.3.0` and nothing when upstream is `1.2.5`; in general the result is
lexicographically sorted, carries each `(dependent, package)` pair at most
once, and every trigger's dependent is a reverse dependency of the changed
package. -/
theorem C1_check_rebuilds :
    check_rebuilds gC1 (upC1 "1.3.0") = [("A", "B", "B 1.2.0 -> 1.3.0 (ub=x.x)")] ∧
    check_rebuilds gC1 (upC1 "1.2.5") = [] ∧
    (∀ (g : Graph) (u : List (String × PkgInfo)),
      List.Sorted tripleLe (check_rebuilds g u)) ∧
    (∀ (g : Graph) (u : List (String × PkgInfo)),
      (check_rebuilds g u).Pairwise (fun a b => keyOf a ≠ keyOf b)) ∧
    (∀ (g : Graph) (u : List (String × PkgInfo)) (t : String × String × String),
      t ∈ check_rebuilds g u → t.1 ∈ rdeps g t.2.1) := by
  refine ⟨by decide, by decide, ?_, ?_, ?_⟩
  · intro g u
    exact List.sorted_insertionSort tripleLe _
  · intro g u
    unfold check_rebuilds
    have hperm := List.perm_insertionSort tripleLe
      ((g.packages.foldl (rebuildPkg g u) ([], [])).1)
    rw [List.Perm.pairwise_iff (fun h e => h e.symm) hperm]
    exact (rebuildFold_inv g u g.packages ([], []) (List.Pairwise.nil)
      (by intro t ht; cases ht)).1
  · intro g u t ht
    unfold check_rebuilds at ht
    rw [(List.perm_insertionSort tripleLe _).mem_iff] at ht
    exact rebuildFold_rdeps g u g.packages ([], [])
      (by intro t ht; cases ht) t ht

-- ===========================================================================
-- Claim C10
-- ===========================================================================

theorem rebuildPkg_skip (g : Graph) (u : List (String × PkgInfo))
    (acc : RebuildAcc) (p : Package) (info : PkgInfo)
    (hup : pyGet u p.name = some info) (hv : info.version = "") :
    rebuildPkg g u acc p = acc := by
  rw [rebuildPkg_eq_some g u acc p info hup]
  by_cases hre : p.run_exports.isEmpty = true
  · rw [if_pos hre]
  · rw [if_neg hre, if_pos (Or.inl hv)]

/-- C10: a package whose upstream snapshot entry carries an empty version
string never produces a rebuild trigger, whatever its export rules and
reverse dependencies. -/
theorem C10_empty_upstream_version :
    ∀ (g : Graph) (u : List (String × PkgInfo)) (name : String) (info : PkgInfo),
      pyGet u name = some info → info.version = "" →
      ∀ (d r : String), (d, name, r) ∉ check_rebuilds g u := by
  intro g u name info hup hv d r hmem
  unfold check_rebuilds at hmem
  rw [(List.perm_insertionSort tripleLe _).mem_iff] at hmem
  suffices h : ∀ (ps : List Package) (acc : RebuildAcc),
      (∀ t ∈ acc.1, t.2.1 ≠ name) →
      ∀ t ∈ (ps.foldl (rebuildPkg g u) acc).1, t.2.1 ≠ name by
    exact h g.packages ([], []) (by intro t ht; cases ht)
      (d, name, r) hmem rfl
  intro ps
  induction ps with
  | nil => intro acc hacc; exact hacc
  | cons p rest ih =>
    intro acc hacc
    simp only [List.foldl_cons]
    by_cases hp : p.name = name
    · rw [rebuildPkg_skip g u acc p info (by rw [hp]; exact hup) (hv)]
      exact ih acc hacc
    · refine ih _ ?_
      intro t ht
      rcases rebuildPkg_mem g u acc p t ht with h1 | h1
      · exact hacc t h1
      · rw [h1.2]
        exact hp

/-- C10 witness: the theorem applied to the example graph with an empty
upstream version for `B`. -/
theorem C10_witness : ("A", "B", "x") ∉ check_rebuilds gC1 (upC1 "") :=
  C10_empty_upstream_version gC1 (upC1 "") "B"
    { version := "", build_number := 0, build := "", depends := [] }
    (by decide) rfl "A" "x"

-- ===========================================================================
-- Classification lemmas (claims C4, C6)
-- ===========================================================================

/-- The classification predicate for `missing`: the tracked name is absent
from the index's shard map. -/
def isMissingB (s : List (String × List Nat)) (n : String) : Bool :=
  (pyGet s n).isNone

/-- The classification predicate for `changed`: present in the shard map and
not (recorded hash matches and the local snapshot has an entry). -/
def isChangedB (s : List (String × List Nat)) (oh : List (String × String))
    (od : List (String × PkgInfo)) (n : String) : Bool :=
  match pyGet s n with
  | none => false
  | some h => !(decide (pyGet oh n = some (hexString h)) && (pyGet od n).isSome)

theorem classifyStep_none (s : List (String × List Nat))
    (oh : List (String × String)) (od : List (String × PkgInfo))
    (acc : ClassifyOut) (n : String) (hn : pyGet s n = none) :
    classifyStep s oh od acc n = { acc with missing := acc.missing ++ [n] } := by
  unfold classifyStep
  rw [hn]

theorem classifyStep_some_unchanged (s : List (String × List Nat))
    (oh : List (String × String)) (od : List (String × PkgInfo))
    (acc : ClassifyOut) (n : String) (h : List Nat) (hn : pyGet s n = some h)
    (hc : pyGet oh n = some (hexString h) ∧ (pyGet od n).isSome = true) :
    classifyStep s oh od acc n =
      { acc with new_hashes := dictSet acc.new_hashes n (hexString h),
                 unchanged := acc.unchanged + 1 } := by
  unfold classifyStep
  rw [hn]
  show (if pyGet oh n = some (hexString h) ∧ (pyGet od n).isSome = true then
      { acc with new_hashes := dictSet acc.new_hashes n (hexString h),
                 unchanged := acc.unchanged + 1 }
    else
      { acc with new_hashes := dictSet acc.new_hashes n (hexString h),
                 changed := acc.changed ++ [n] }) = _
  rw [if_pos hc]

theorem classifyStep_some_changed (s : List (String × List Nat))
    (oh : List (String × String)) (od : List (String × PkgInfo))
    (acc : ClassifyOut) (n : String) (h : List Nat) (hn : pyGet s n = some h)
    (hc : ¬(pyGet oh n = some (hexString h) ∧ (pyGet od n).isSome = true)) :
    classifyStep s oh od acc n =
      { acc with new_hashes := dictSet acc.new_hashes n (hexString h),
                 changed := acc.changed ++ [n] } := by
  unfold classifyStep
  rw [hn]
  show (if pyGet oh n = some (hexString h) ∧ (pyGet od n).isSome = true then
      { acc with new_hashes := dictSet acc.new_hashes n (hexString h),
                 unchanged := acc.unchanged + 1 }
    else
      { acc with new_hashes := dictSet acc.new_hashes n (hexString h),
                 changed := acc.changed ++ [n] }) = _
  rw [if_neg hc]

theorem isChangedB_false_of_unchanged (s : List (String × List Nat))
    (oh : List (String × String)) (od : List (String × PkgInfo)) (n : String)
    (h : List Nat) (hn : pyGet s n = some h)
    (hc : pyGet oh n = some (hexString h) ∧ (pyGet od n).isSome = true) :
    isChangedB s oh od n = false := by
  unfold isChangedB
  rw [hn]
  simp [hc.1, hc.2]

theorem isChangedB_true_of_changed (s : List (String × List Nat))
    (oh : List (String × String)) (od : List (String × PkgInfo)) (n : String)
    (h : List Nat) (hn : pyGet s n = some h)
    (hc : ¬(pyGet oh n = some (hexString h) ∧ (pyGet od n).isSome = true)) :
    isChangedB s oh od n = true := by
  unfold isChangedB
  rw [hn]
  rcases not_and_or.mp hc with h1 | h1
  · simp [h1]
  · simp [Bool.eq_false_iff.mpr h1]

theorem classify_loop_missing (s : List (String × List Nat))
    (oh : List (String × String)) (od : List (String × PkgInfo)) :
    ∀ (t : List String) (acc : ClassifyOut),
      (t.foldl (classifyStep s oh od) acc).missing =
        acc.missing ++ t.filter (isMissingB s) := by
  intro t
  induction t with
  | nil => intro acc; simp
  | cons n rest ih =>
    intro acc
    simp only [List.foldl_cons]
    cases hn : pyGet s n with
    | none =>
      rw [classifyStep_none s oh od acc n hn, ih _,
        List.filter_cons_of_pos (by simp [isMissingB, hn])]
      show (acc.missing ++ [n]) ++ rest.filter (isMissingB s) =
        acc.missing ++ n :: rest.filter (isMissingB s)
      rw [List.append_assoc, List.singleton_append]
    | some h =>
      by_cases hc : pyGet oh n = some (hexString h) ∧ (pyGet od n).isSome = true
      · rw [classifyStep_some_unchanged s oh od acc n h hn hc, ih _,
          List.filter_cons_of_neg (by simp [isMissingB, hn])]
      · rw [classifyStep_some_changed s oh od acc n h hn hc, ih _,
          List.filter_cons_of_neg (by simp [isMissingB, hn])]

theorem classify_loop_changed (s : List (String × List Nat))
    (oh : List (String × String)) (od : List (String × PkgInfo)) :
    ∀ (t : List String) (acc : ClassifyOut),
      (t.foldl (classifyStep s oh od) acc).changed =
        acc.changed ++ t.filter (isChangedB s oh od) := by
  intro t
  induction t with
  | nil => intro acc; simp
  | cons n rest ih =>
    intro acc
    simp only [List.foldl_cons]
    cases hn : pyGet s n with
    | none =>
      rw [classifyStep_none s oh od acc n hn, ih _,
        List.filter_cons_of_neg (by simp [isChangedB, hn])]
    | some h =>
      by_cases hc : pyGet oh n = some (hexString h) ∧ (pyGet od n).isSome = true
      · rw [classifyStep_some_unchanged s oh od acc n h hn hc, ih _,
          List.filter_cons_of_neg
            (by rw [isChangedB_false_of_unchanged s oh od n h hn hc]; exact Bool.false_ne_true)]
      · rw [classifyStep_some_changed s oh od acc n h hn hc, ih _,
          List.filter_cons_of_pos (isChangedB_true_of_changed s oh od n h hn hc)]
        show (acc.changed ++ [n]) ++ rest.filter (isChangedB s oh od) =
          acc.changed ++ n :: rest.filter (isChangedB s oh od)
        rw [List.append_assoc, List.singleton_append]

theorem classify_loop_count (s : List (String × List Nat))
    (oh : List (String × String)) (od : List (String × PkgInfo)) :
    ∀ (t : List String) (acc : ClassifyOut),
      (t.foldl (classifyStep s oh od) acc).changed.length +
        (t.foldl (classifyStep s oh od) acc).unchanged +
        (t.foldl (classifyStep s oh od) acc).missing.length =
      acc.changed.length + acc.unchanged + acc.missing.length + t.length := by
  intro t
  induction t with
  | nil => intro acc; simp
  | cons n rest ih =>
    intro acc
    simp only [List.foldl_cons]
    cases hn : pyGet s n with
    | none =>
      rw [classifyStep_none s oh od acc n hn, ih _]
      simp only [List.length_append, List.length_singleton, List.length_cons,
        List.length_nil]
      omega
    | some h =>
      by_cases hc : pyGet oh n = some (hexString h) ∧ (pyGet od n).isSome = true
      · rw [classifyStep_some_unchanged s oh od acc n h hn hc, ih _]
        simp only [List.length_cons]
        omega
      · rw [classifyStep_some_changed s oh od acc n h hn hc, ih _]
        simp only [List.length_append, List.length_singleton, List.length_cons,
          List.length_nil]
        omega

-- ===========================================================================
-- Claim C4
-- ===========================================================================

/-- C4 counterexample: tracked name `"a"`, index hash `[0]`, recorded hash
equal to the index hash, but no local snapshot entry — the code classifies
`"a"` as changed (the claim says hash equality alone makes it unchanged). -/
theorem C4_counterexample :
    pyGet [("a", hexString [0])] "a" = some (hexString [0]) ∧
    (classify ["a"] [("a", [0])] [("a", hexString [0])] []).changed = ["a"] ∧
    (classify ["a"] [("a", [0])] [("a", hexString [0])] []).unchanged = 0 := by
  refine ⟨rfl, rfl, rfl⟩

/-- C4 (amended): a tracked name is missing iff absent from the shard map;
otherwise it is unchanged iff the index hash equals the recorded hash AND
the local snapshot has an entry for it — with no snapshot entry it is
classified changed even when the hashes match; missing names never appear
among changed, and every tracked name is classified. -/
theorem C4_classification :
    ∀ (tracked : List String) (shards_map : List (String × List Nat))
      (old_hashes : List (String × String)) (old_deps : List (String × PkgInfo))
      (n : String),
      (n ∈ (classify tracked shards_map old_hashes old_deps).missing ↔
        n ∈ tracked ∧ pyGet shards_map n = none) ∧
      (n ∈ (classify tracked shards_map old_hashes old_deps).changed ↔
        n ∈ tracked ∧ ∃ h, pyGet shards_map n = some h ∧
          ¬(pyGet old_hashes n = some (hexString h) ∧
            (pyGet old_deps n).isSome = true)) ∧
      ¬(n ∈ (classify tracked shards_map old_hashes old_deps).missing ∧
        n ∈ (classify tracked shards_map old_hashes old_deps).changed) ∧
      (classify tracked shards_map old_hashes old_deps).changed.length +
        (classify tracked shards_map old_hashes old_deps).unchanged +
        (classify tracked shards_map old_hashes old_deps).missing.length =
        tracked.length := by
  intro t s oh od n
  have hmiss : (classify t s oh od).missing = t.filter (isMissingB s) := by
    unfold classify
    rw [classify_loop_missing s oh od t _]
    rfl
  have hch : (classify t s oh od).changed = t.filter (isChangedB s oh od) := by
    unfold classify
    rw [classify_loop_changed s oh od t _]
    rfl
  have hmiff : n ∈ (classify t s oh od).missing ↔ n ∈ t ∧ pyGet s n = none := by
    rw [hmiss, List.mem_filter]
    unfold isMissingB
    rw [Option.isNone_iff_eq_none]
  have hciff : n ∈ (classify t s oh od).changed ↔
      n ∈ t ∧ ∃ h, pyGet s n = some h ∧
        ¬(pyGet oh n = some (hexString h) ∧ (pyGet od n).isSome = true) := by
    rw [hch, List.mem_filter]
    constructor
    · rintro ⟨hmem, hb⟩
      refine ⟨hmem, ?_⟩
      cases hn : pyGet s n with
      | none =>
        unfold isChangedB at hb
        rw [hn] at hb
        cases hb
      | some h =>
        refine ⟨h, rfl, ?_⟩
        intro hc
        rw [isChangedB_false_of_unchanged s oh od n h hn hc] at hb
        cases hb
    · rintro ⟨hmem, h, hn, hc⟩
      exact ⟨hmem, isChangedB_true_of_changed s oh od n h hn hc⟩
  refine ⟨hmiff, hciff, ?_, ?_⟩
  · rintro ⟨hm, hc⟩
    rcases hmiff.mp hm with ⟨_, hnone⟩
    rcases hciff.mp hc with ⟨_, h, hsome, _⟩
    rw [hnone] at hsome
    cases hsome
  · unfold classify
    rw [classify_loop_count s oh od t _]
    simp

-- ===========================================================================
-- fetchChanged lemmas (claim C6)
-- ===========================================================================

theorem fetchChanged_mono (s : List (String × List Nat)) (c : String → Shard) :
    ∀ (changed : List String) (d0 : List (String × PkgInfo)) (n : String),
      (pyGet d0 n).isSome = true →
      (pyGet (fetchChanged s c d0 changed) n).isSome = true := by
  intro changed
  unfold fetchChanged
  induction changed with
  | nil => intro d0 n h; exact h
  | cons m rest ih =>
    intro d0 n h
    simp only [List.foldl_cons]
    apply ih
    cases hm : pyGet s m with
    | none => exact h
    | some hsh =>
      show (pyGet (match extract_latest_from_shard (c (hexString hsh)) with
        | some info => dictSet d0 m info
        | none => d0) n).isSome = true
      cases hx : extract_latest_from_shard (c (hexString hsh)) with
      | none => exact h
      | some info => exact pyGet_dictSet_isSome d0 m n info h

theorem fetchChanged_sets (s : List (String × List Nat)) (c : String → Shard) :
    ∀ (changed : List String) (d0 : List (String × PkgInfo)) (n : String) (h : List Nat),
      n ∈ changed → pyGet s n = some h →
      (extract_latest_from_shard (c (hexString h))).isSome = true →
      (pyGet (fetchChanged s c d0 changed) n).isSome = true := by
  intro changed
  induction changed with
  | nil => intro d0 n h hmem _ _; cases hmem
  | cons m rest ih =>
    intro d0 n h hmem hn hex
    unfold fetchChanged
    simp only [List.foldl_cons]
    rcases List.mem_cons.mp hmem with he | hr
    · subst he
      rw [hn]
      obtain ⟨info, hinfo⟩ := Option.isSome_iff_exists.mp hex
      show (pyGet (List.foldl (fun nd name =>
          match pyGet s name with
          | none => nd
          | some h =>
            match extract_latest_from_shard (c (hexString h)) with
            | some info => dictSet nd name info
            | none => nd)
          (match extract_latest_from_shard (c (hexString h)) with
           | some info => dictSet d0 n info
           | none => d0) rest) n).isSome = true
      rw [hinfo]
      exact fetchChanged_mono s c rest (dictSet d0 n info) n
        (by rw [pyGet_dictSet_self]; rfl)
    · exact ih _ n h hr hn hex

-- ===========================================================================
-- new_hashes lemmas and claim C6
-- ===========================================================================

theorem classifyStep_hashes (s : List (String × List Nat))
    (oh : List (String × String)) (od : List (String × PkgInfo))
    (acc : ClassifyOut) (n : String) :
    (classifyStep s oh od acc n).new_hashes =
      match pyGet s n with
      | none => acc.new_hashes
      | some h => dictSet acc.new_hashes n (hexString h) := by
  cases hn : pyGet s n with
  | none => rw [classifyStep_none s oh od acc n hn]
  | some h =>
    by_cases hc : pyGet oh n = some (hexString h) ∧ (pyGet od n).isSome = true
    · rw [classifyStep_some_unchanged s oh od acc n h hn hc]
    · rw [classifyStep_some_changed s oh od acc n h hn hc]

theorem classify_loop_hashes_indep (s : List (String × List Nat))
    (oh oh' : List (String × String)) (od od' : List (String × PkgInfo)) :
    ∀ (t : List String) (acc acc' : ClassifyOut),
      acc.new_hashes = acc'.new_hashes →
      (t.foldl (classifyStep s oh od) acc).new_hashes =
        (t.foldl (classifyStep s oh' od') acc').new_hashes := by
  intro t
  induction t with
  | nil => intro acc acc' h; exact h
  | cons n rest ih =>
    intro acc acc' h
    simp only [List.foldl_cons]
    apply ih
    rw [classifyStep_hashes s oh od acc n, classifyStep_hashes s oh' od' acc' n, h]

theorem classify_loop_hashes_get (s : List (String × List Nat))
    (oh : List (String × String)) (od : List (String × PkgInfo)) :
    ∀ (t : List String) (acc : ClassifyOut) (n : String) (h : List Nat),
      pyGet s n = some h →
      (n ∈ t ∨ pyGet acc.new_hashes n = some (hexString h)) →
      pyGet (t.foldl (classifyStep s oh od) acc).new_hashes n =
        some (hexString h) := by
  intro t
  induction t with
  | nil =>
    intro acc n h _ hmem
    rcases hmem with hmem | hmem
    · cases hmem
    · exact hmem
  | cons m rest ih =>
    intro acc n h hn hmem
    simp only [List.foldl_cons]
    refine ih _ n h hn ?_
    rcases hmem with hmem | hmem
    · rcases List.mem_cons.mp hmem with he | hr
      · subst he
        right
        rw [classifyStep_hashes s oh od acc n, hn]
        show pyGet (dictSet acc.new_hashes n (hexString h)) n = some (hexString h)
        exact pyGet_dictSet_self _ _ _
      · left
        exact hr
    · right
      rw [classifyStep_hashes s oh od acc m]
      cases hm : pyGet s m with
      | none => exact hmem
      | some h2 =>
        show pyGet (dictSet acc.new_hashes m (hexString h2)) n = some (hexString h)
        by_cases hnm : n = m
        · subst hnm
          rw [hn] at hm
          injection hm with hh
          subst hh
          exact pyGet_dictSet_self _ _ _
        · rw [pyGet_dictSet_ne _ _ _ _ hnm]
          exact hmem

theorem classify_changed_eq (t : List String) (s : List (String × List Nat))
    (oh : List (String × String)) (od : List (String × PkgInfo)) :
    (classify t s oh od).changed = t.filter (isChangedB s oh od) := by
  unfold classify
  rw [classify_loop_changed s oh od t _]
  show [] ++ t.filter (isChangedB s oh od) = _
  rw [List.nil_append]

theorem classify_hashes_indep (t : List String) (s : List (String × List Nat))
    (oh oh' : List (String × String)) (od od' : List (String × PkgInfo)) :
    (classify t s oh od).new_hashes = (classify t s oh' od').new_hashes := by
  unfold classify
  exact classify_loop_hashes_indep s oh oh' od od' t _ _ rfl

/-- C6 counterexample: one tracked name `"a"` whose shard decodes to an empty
package map.  The first run records the hash but can extract no snapshot
entry, so the second run — same index, same shard hashes, same shard
contents — classifies `"a"` as changed again: the second run's changed set
is not empty. -/
theorem C6_counterexample :
    (sync_run ["a"] [("a", [0])] (fun _ => Shard.mk [] [])
        (sync_run ["a"] [("a", [0])] (fun _ => Shard.mk [] []) ⟨[], []⟩).1).2 ≠
      [] := by decide

/-- C6 (amended): provided every tracked shard either yields a representative
entry on extraction or already has a snapshot entry, a second full sync run
with the same index, shard hashes and shard contents produces an empty
changed set and persists a snapshot and hash cache identical to the state
after the first run.  (With an empty shard and no prior snapshot entry the
name is re-classified changed on every run, though the persisted snapshot is
still byte-identical.) -/
theorem C6_sync_idempotent :
    ∀ (tracked : List String) (shards_map : List (String × List Nat))
      (content : String → Shard) (st : SyncState),
      (∀ (n : String) (h : List Nat), n ∈ tracked → pyGet shards_map n = some h →
        (extract_latest_from_shard (content (hexString h))).isSome = true ∨
        (pyGet st.deps n).isSome = true) →
      (sync_run tracked shards_map content
          (sync_run tracked shards_map content st).1).2 = [] ∧
      (sync_run tracked shards_map content
          (sync_run tracked shards_map content st).1).1 =
        (sync_run tracked shards_map content st).1 := by
  intro t s c st H
  have KH : ∀ (n : String) (h : List Nat), n ∈ t → pyGet s n = some h →
      pyGet (classify t s st.hashes st.deps).new_hashes n = some (hexString h) := by
    intro n h hmem hn
    unfold classify
    exact classify_loop_hashes_get s st.hashes st.deps t _ n h hn (Or.inl hmem)
  have KD : ∀ (n : String) (h : List Nat), n ∈ t → pyGet s n = some h →
      (pyGet (fetchChanged s c st.deps
        (classify t s st.hashes st.deps).changed) n).isSome = true := by
    intro n h hmem hn
    by_cases hc : pyGet st.hashes n = some (hexString h) ∧
        (pyGet st.deps n).isSome = true
    · exact fetchChanged_mono s c _ st.deps n hc.2
    · have hch : n ∈ (classify t s st.hashes st.deps).changed := by
        unfold classify
        rw [classify_loop_changed s st.hashes st.deps t _]
        refine List.mem_append.mpr (Or.inr ?_)
        exact List.mem_filter.mpr
          ⟨hmem, isChangedB_true_of_changed s st.hashes st.deps n h hn hc⟩
      rcases H n h hmem hn with hex | hdep
      · exact fetchChanged_sets s c _ st.deps n h hch hn hex
      · exact fetchChanged_mono s c _ st.deps n hdep
  have hch2 : (classify t s
      (classify t s st.hashes st.deps).new_hashes
      (fetchChanged s c st.deps (classify t s st.hashes st.deps).changed)).changed =
      [] := by
    rw [classify_changed_eq, List.filter_eq_nil_iff]
    intro n hmem
    cases hn : pyGet s n with
    | none =>
      intro hb
      unfold isChangedB at hb
      rw [hn] at hb
      cases hb
    | some h =>
      rw [isChangedB_false_of_unchanged s _ _ n h hn
        ⟨KH n h hmem hn, KD n h hmem hn⟩]
      exact Bool.false_ne_true
  have hind : (classify t s (classify t s st.hashes st.deps).new_hashes
      (fetchChanged s c st.deps (classify t s st.hashes st.deps).changed)).new_hashes =
      (classify t s st.hashes st.deps).new_hashes :=
    classify_hashes_indep t s _ st.hashes _ st.deps
  refine ⟨?_, ?_⟩
  · show (classify t s
      (classify t s st.hashes st.deps).new_hashes
      (fetchChanged s c st.deps (classify t s st.hashes st.deps).changed)).changed = []
    exact hch2
  · show (⟨fetchChanged s c
        (fetchChanged s c st.deps (classify t s st.hashes st.deps).changed)
        (classify t s (classify t s st.hashes st.deps).new_hashes
          (fetchChanged s c st.deps (classify t s st.hashes st.deps).changed)).changed,
      (classify t s (classify t s st.hashes st.deps).new_hashes
        (fetchChanged s c st.deps (classify t s st.hashes st.deps).changed)).new_hashes⟩ :
      SyncState) =
      ⟨fetchChanged s c st.deps (classify t s st.hashes st.deps).changed,
       (classify t s st.hashes st.deps).new_hashes⟩
    rw [hch2, hind]
    rfl

/-- C6 witness: the amended idempotence theorem applied to one tracked name
whose shard holds one package variant; the second run's changed set is
empty. -/
theorem C6_witness :
    (sync_run ["a"] [("a", [0])] (fun _ => okShardC6)
        (sync_run ["a"] [("a", [0])] (fun _ => okShardC6) ⟨[], []⟩).1).2 = [] := by
  have H : ∀ (n : String) (h : List Nat), n ∈ ["a"] →
      pyGet [("a", [0])] n = some h →
      (extract_latest_from_shard ((fun _ => okShardC6) (hexString h))).isSome = true ∨
      (pyGet (SyncState.mk [] []).deps n).isSome = true := by
    intro n h _ _
    exact Or.inl (by decide : (extract_latest_from_shard okShardC6).isSome = true)
  exact (C6_sync_idempotent ["a"] [("a", [0])] (fun _ => okShardC6) ⟨[], []⟩ H).1

-- ===========================================================================
-- Claim C7
-- ===========================================================================

/-- C7 counterexample: in the multigraph with two parallel `A → B` edges and
one `B → C` edge, `dep_chain_2hop "A"` returns the triple `(A, B, C)` twice —
the two-hop query result is not deduplicated (the query has no DISTINCT and
applies no sort). -/
theorem C7_counterexample : ¬ (dep_chain_2hop gPar "A").Nodup := by decide

/-- C7 (amended): `rdeps` and `deps` return deduplicated, lexicographically
sorted lists, and `_all_nodes` deduplicates (a set union, in unspecified
order); `dep_chain_2hop` returns one triple per matching pair of edge rows —
neither deduplicated (parallel edges repeat a triple, see the concrete
multigraph below) nor sorted. -/
theorem C7_query_results :
    (∀ (g : Graph) (n : String),
      List.Sorted (fun a b => a ≤ b) (rdeps g n) ∧ (rdeps g n).Nodup) ∧
    (∀ (g : Graph) (n : String),
      List.Sorted (fun a b => a ≤ b) (deps g n) ∧ (deps g n).Nodup) ∧
    (∀ g : Graph, (all_nodes g).Nodup) ∧
    dep_chain_2hop gPar "A" = [("A", "B", "C"), ("A", "B", "C")] := by
  refine ⟨?_, ?_, ?_, by decide⟩
  · intro g n
    refine ⟨List.sorted_insertionSort _ _, ?_⟩
    unfold rdeps
    rw [(List.perm_insertionSort _ _).nodup_iff]
    exact List.nodup_dedup _
  · intro g n
    refine ⟨List.sorted_insertionSort _ _, ?_⟩
    unfold deps
    rw [(List.perm_insertionSort _ _).nodup_iff]
    exact List.nodup_dedup _
  · intro g
    exact List.nodup_dedup _

/-- C1 witness: the general reverse-dependency part of the theorem applied to
the concrete example trigger. -/
theorem C1_witness : ("A" : String) ∈ rdeps gC1 "B" :=
  C1_check_rebuilds.2.2.2.2 gC1 (upC1 "1.3.0")
    ("A", "B", "B 1.2.0 -> 1.3.0 (ub=x.x)") (by decide)

/-- C4 witness: the classification theorem applied to one tracked name and an
empty shard map. -/
theorem C4_witness : "a" ∈ (classify ["a"] [] [] []).missing :=
  (C4_classification ["a"] [] [] [] "a").1.mpr ⟨by decide, rfl⟩
